import Mathlib

/-!
Verification of the MissingDrop WSS bridge server (src/server/server.js)
and the RGB565 frame codec (src/client-web/js/wss.js `packRGB16`,
src/client-matrix/src/wifi_client.h `convert16to24bit`).

The hub is a single-threaded, event-driven reactor: each WebSocket event
(connection, text or binary message, pong, close, heartbeat sweep) runs to
completion.  We embed it as a step function on an explicit hub state.
Connections are identified by process-unique natural numbers; outbound
effects (sends, closes, pings) are collected as a list of actions in the
order the server emits them.

The spec names the two roles `producer` and `display`; the code calls them
`phone` and `matrix` (VALID_ROLES = ['phone', 'matrix']).  We keep the
code's names.
-/

namespace MissingDrop

/-- The two roles of VALID_ROLES: 'phone' (the spec's producer) and
'matrix' (the spec's display). -/
inductive Role where
  | phone
  | matrix
deriving DecidableEq

/-- Per-connection state: the handler-closure variables `clientRole` and
`clientPair` (null until a successful join), the `ws.isAlive` heartbeat
flag, and whether the transport is open (readyState === 1). -/
structure ConnSt where
  clientRole : Option Role
  clientPair : Option Nat
  isAlive : Bool
  isOpen : Bool
deriving DecidableEq

/-- The `pairs` table: pairs 1 and 2, each with a phone slot and a matrix
slot holding a connection id or null. -/
structure Registry where
  p1phone : Option Nat
  p1matrix : Option Nat
  p2phone : Option Nat
  p2matrix : Option Nat
deriving DecidableEq

/-- pairs[p][r]; undefined pairs (p outside 1, 2) read as empty, matching
that the server only indexes the table with validated pair ids. -/
def Registry.get (reg : Registry) (p : Nat) (r : Role) : Option Nat :=
  if p = 1 then
    match r with
    | .phone => reg.p1phone
    | .matrix => reg.p1matrix
  else if p = 2 then
    match r with
    | .phone => reg.p2phone
    | .matrix => reg.p2matrix
  else none

/-- pairs[p][r] = v; a write to a pair outside 1, 2 never happens in the
server (pair ids are validated first) and is a no-op here. -/
def Registry.set (reg : Registry) (p : Nat) (r : Role) (v : Option Nat) : Registry :=
  if p = 1 then
    match r with
    | .phone => { reg with p1phone := v }
    | .matrix => { reg with p1matrix := v }
  else if p = 2 then
    match r with
    | .phone => { reg with p2phone := v }
    | .matrix => { reg with p2matrix := v }
  else reg

/-- A slot can only be occupied for the two valid pair ids. -/
theorem Registry.get_some_pair {reg : Registry} {p : Nat} {r : Role} {c : Nat}
    (h : reg.get p r = some c) : p = 1 ∨ p = 2 := by
  by_cases h1 : p = 1
  · exact Or.inl h1
  · by_cases h2 : p = 2
    · exact Or.inr h2
    · simp [Registry.get, h1, h2] at h

/-- Reading back the slot just written. -/
theorem Registry.get_set_same (reg : Registry) {p : Nat} (r : Role) (v : Option Nat)
    (hp : p = 1 ∨ p = 2) : (reg.set p r v).get p r = v := by
  rcases hp with h | h <;> subst h <;> cases r <;>
    simp [Registry.get, Registry.set]

/-- Writing one slot leaves every other slot unchanged. -/
theorem Registry.get_set_ne (reg : Registry) {p q : Nat} {r s : Role} (v : Option Nat)
    (h : ¬(p = q ∧ r = s)) : (reg.set p r v).get q s = reg.get q s := by
  by_cases hp1 : p = 1
  · subst hp1
    by_cases hq : q = 1
    · subst hq
      have hrs : r ≠ s := fun hrs => h ⟨rfl, hrs⟩
      cases r <;> cases s <;> simp_all [Registry.get, Registry.set]
    · by_cases hq2 : q = 2 <;> cases r <;> cases s <;>
        simp_all [Registry.get, Registry.set]
  · by_cases hp2 : p = 2
    · subst hp2
      by_cases hq : q = 2
      · subst hq
        have hrs : r ≠ s := fun hrs => h ⟨rfl, hrs⟩
        cases r <;> cases s <;> simp_all [Registry.get, Registry.set]
      · by_cases hq1 : q = 1 <;> cases r <;> cases s <;>
          simp_all [Registry.get, Registry.set]
    · simp [Registry.set, hp1, hp2]

/-- Outbound JSON message types the server produces. -/
inductive OutMsg where
  | joined (role : Role) (pair : Nat)
  | status (pair : Nat) (phonePresent : Bool) (matrixPresent : Bool)
  | error (message : String)
  | kicked (reason : String)
  | dropMsg (payload : String)
deriving DecidableEq

/-- Result of JSON.parse on an inbound text frame: a drop message (payload
kept opaque, as the server forwards it verbatim), a join with its raw role
string and pair number, or any other type tag (which the server ignores). -/
inductive ClientMsg where
  | dropMsg (payload : String)
  | join (role : String) (pair : Nat)
  | other (ty : String)
deriving DecidableEq

/-- An inbound frame: binary data, or a text frame (none = JSON.parse
throws). -/
inductive Frame where
  | binary (data : List Nat)
  | text (parsed : Option ClientMsg)
deriving DecidableEq

/-- Observable effects of one handler run, in emission order. -/
inductive Action where
  | send (dst : Nat) (msg : OutMsg)
  | sendBinary (dst : Nat) (data : List Nat)
  | close (c : Nat)
  | terminate (c : Nat)
  | ping (c : Nat)
deriving DecidableEq

/-- Hub state: the pair registry, the wss.clients list, and each known
connection's state. -/
structure Hub where
  reg : Registry
  clients : List Nat
  connSt : Nat → Option ConnSt

/-- The hub at server start: empty registry, no clients. -/
def initHub : Hub :=
  { reg := ⟨none, none, none, none⟩, clients := [], connSt := fun _ => none }

/-- Update one connection's record in place. -/
def updConn (st : Hub) (c : Nat) (f : ConnSt → ConnSt) : Hub :=
  { st with connSt := fun x => if x = c then (st.connSt x).map f else st.connSt x }

/-- readyState === 1 for a connection id. -/
def Hub.isOpenConn (st : Hub) (c : Nat) : Bool :=
  match st.connSt c with
  | some cs => cs.isOpen
  | none => false

/-- sendJSON(ws, data): send only when the argument is non-null and the
socket is open. -/
def sendJSON (st : Hub) (w : Option Nat) (m : OutMsg) : List Action :=
  match w with
  | some c => if st.isOpenConn c then [.send c m] else []
  | none => []

/-- notifyPairStatus(pairId): send the current status of pair `p` to both
of its slot members. -/
def notifyPairStatus (st : Hub) (p : Nat) : List Action :=
  let ph := st.reg.get p .phone
  let mx := st.reg.get p .matrix
  let msg := OutMsg.status p ph.isSome mx.isSome
  sendJSON st ph msg ++ sendJSON st mx msg

/-- VALID_ROLES.includes(role), and the decoded role on success. -/
def roleOfString : String → Option Role
  | "phone" => some .phone
  | "matrix" => some .matrix
  | _ => none

/-- Join handler, kick phase: if the target slot holds a different
connection, send it kicked('Replaced by new connection') and close its
transport (close() makes its readyState leave 1 at once; the close event
itself arrives later as a separate event). -/
def kickStep (st : Hub) (c : Nat) (p : Nat) (r : Role) : Hub × List Action :=
  match st.reg.get p r with
  | some o =>
      if o ≠ c then
        (updConn st o (fun cs => { cs with isOpen := false }),
         sendJSON st (some o) (.kicked "Replaced by new connection") ++ [.close o])
      else (st, [])
  | none => (st, [])

/-- Join handler, release phase: if the joining connection already holds a
slot (clientPair and clientRole truthy) and that slot still references it,
clear the slot and broadcast the pair's recomputed status. -/
def removePrev (st : Hub) (c : Nat) : Hub × List Action :=
  match st.connSt c with
  | none => (st, [])
  | some cs =>
      match cs.clientPair, cs.clientRole with
      | some cp, some cr =>
          if cp ≠ 0 then
            if st.reg.get cp cr = some c then
              ({ st with reg := st.reg.set cp cr none },
               notifyPairStatus { st with reg := st.reg.set cp cr none } cp)
            else (st, [])
          else (st, [])
      | _, _ => (st, [])

/-- Join handler, register phase: record the (pair, role) in the closure
variables, write the slot, reply joined, broadcast the pair status. -/
def registerStep (st : Hub) (c : Nat) (p : Nat) (r : Role) : Hub × List Action :=
  let st' := updConn { st with reg := st.reg.set p r (some c) } c
    (fun cs => { cs with clientRole := some r, clientPair := some p })
  (st', sendJSON st' (some c) (.joined r p) ++ notifyPairStatus st' p)

/-- The msg.type === 'join' branch: validate role then pair (replying with
an error and stopping on failure), then kick / release / register. -/
def handleJoin (st : Hub) (c : Nat) (roleStr : String) (p : Nat) : Hub × List Action :=
  match roleOfString roleStr with
  | none => (st, sendJSON st (some c) (.error ("Invalid role: " ++ roleStr)))
  | some r =>
      if p = 1 ∨ p = 2 then
        let s1 := kickStep st c p r
        let s2 := removePrev s1.1 c
        let s3 := registerStep s2.1 c p r
        (s3.1, s1.2 ++ s2.2 ++ s3.2)
      else (st, sendJSON st (some c) (.error ("Invalid pair: " ++ toString p)))

/-- ws.on('message'): binary frames forward phone → same pair's matrix when
that slot is occupied and open; text frames are parsed JSON handled by
type tag; a parse failure replies error('Invalid JSON'); an unrecognized
type falls through with no reply. -/
def handleMessage (st : Hub) (c : Nat) (f : Frame) : Hub × List Action :=
  match f with
  | .binary d =>
      (st,
        match st.connSt c with
        | some cs =>
            match cs.clientRole, cs.clientPair with
            | some .phone, some p =>
                if p ≠ 0 then
                  match st.reg.get p .matrix with
                  | some t => if st.isOpenConn t then [.sendBinary t d] else []
                  | none => []
                else []
            | _, _ => []
        | none => [])
  | .text none => (st, sendJSON st (some c) (.error "Invalid JSON"))
  | .text (some (.dropMsg payload)) =>
      let tp := if (st.connSt c).bind (fun cs => cs.clientPair) = some 1 then 2 else 1
      (st,
        match st.reg.get tp .phone with
        | some t => if st.isOpenConn t then [.send t (.dropMsg payload)] else []
        | none => [])
  | .text (some (.join s p)) => handleJoin st c s p
  | .text (some (.other _)) => (st, [])

/-- Remove a connection from wss.clients and forget its state. -/
def removeClient (st : Hub) (c : Nat) : Hub :=
  { st with clients := st.clients.erase c,
            connSt := fun x => if x = c then none else st.connSt x }

/-- ws.on('close'): the transport is closed; if the connection held a slot
that still references it, clear the slot and broadcast the pair status;
then the client is dropped from wss.clients. -/
def handleClose (st : Hub) (c : Nat) : Hub × List Action :=
  match st.connSt c with
  | none => (st, [])
  | some cs =>
      match cs.clientPair, cs.clientRole with
      | some cp, some cr =>
          if cp ≠ 0 then
            if st.reg.get cp cr = some c then
              (removeClient
                { updConn st c (fun x => { x with isOpen := false }) with
                  reg := st.reg.set cp cr none } c,
               notifyPairStatus
                { updConn st c (fun x => { x with isOpen := false }) with
                  reg := st.reg.set cp cr none } cp)
            else (removeClient (updConn st c (fun x => { x with isOpen := false })) c, [])
          else (removeClient (updConn st c (fun x => { x with isOpen := false })) c, [])
      | _, _ => (removeClient (updConn st c (fun x => { x with isOpen := false })) c, [])

/-- One heartbeat iteration for one client: terminate it if isAlive is
still false, otherwise clear the flag and ping. -/
def sweepConn (st : Hub) (c : Nat) : Hub × List Action :=
  match st.connSt c with
  | none => (st, [])
  | some cs =>
      if cs.isAlive = false then
        (updConn st c (fun x => { x with isOpen := false }), [.terminate c])
      else
        (updConn st c (fun x => { x with isAlive := false }), [.ping c])

/-- The heartbeat interval callback: wss.clients.forEach(...). -/
def sweepAll (st : Hub) : Hub × List Action :=
  st.clients.foldl
    (fun acc c =>
      let r := sweepConn acc.1 c
      (r.1, acc.2 ++ r.2))
    (st, [])

/-- Reactor events: a new connection (isAlive starts true), a message from a
known connection, a pong (sets isAlive), a transport close, or one
heartbeat sweep. -/
inductive Event where
  | connect (c : Nat)
  | message (c : Nat) (f : Frame)
  | pong (c : Nat)
  | closeEvt (c : Nat)
  | sweep
deriving DecidableEq

/-- One reactor step: dispatch an event to its handler. -/
def step (st : Hub) : Event → Hub × List Action
  | .connect c =>
      match st.connSt c with
      | some _ => (st, [])
      | none =>
          ({ st with clients := st.clients ++ [c],
                     connSt := fun x => if x = c then some ⟨none, none, true, true⟩
                               else st.connSt x }, [])
  | .message c f =>
      match st.connSt c with
      | none => (st, [])
      | some _ => handleMessage st c f
  | .pong c => (updConn st c (fun cs => { cs with isAlive := true }), [])
  | .closeEvt c => handleClose st c
  | .sweep => sweepAll st

/-- Run a sequence of events, discarding actions. -/
def run (st : Hub) (es : List Event) : Hub :=
  es.foldl (fun s e => (step s e).1) st

/-!  The RGB565 frame codec. -/

/-- packRGB16(r, g, b) from wss.js: pack 8-bit channels into
RRRRRGGG GGGBBBBB. -/
def packRGB16 (r g b : Nat) : Nat :=
  let r5 := (r >>> 3) &&& 0x1F
  let g6 := (g >>> 2) &&& 0x3F
  let b5 := (b >>> 3) &&& 0x1F
  (r5 <<< 11) ||| (g6 <<< 5) ||| b5

/-- sendImageData writes the high byte of the packed pixel first. -/
def packHighByte (rgb16 : Nat) : Nat := (rgb16 >>> 8) &&& 0xFF

/-- ... then the low byte. -/
def packLowByte (rgb16 : Nat) : Nat := rgb16 &&& 0xFF

/-- The SmartMatrix 24-bit color triple (each channel an 8-bit value). -/
structure rgb24 where
  red : Nat
  green : Nat
  blue : Nat
deriving DecidableEq

/-- convert16to24bit(high, low, col) from wifi_client.h: rebuild the 16-bit
pixel from its two bytes and widen each field back to 8 bits. -/
def convert16to24bit (high low : Nat) : rgb24 :=
  let rgb16 := (high <<< 8) ||| low
  { red := ((rgb16 >>> 11) &&& 0x1F) <<< 3
    green := ((rgb16 >>> 5) &&& 0x3F) <<< 2
    blue := (rgb16 &&& 0x1F) <<< 3 }

/-!  Concrete hub states used by the witnesses: pair 1 fully occupied by
connection 0 (phone) and connection 1 (matrix), both open and alive. -/

/-- Connection 0's record in the example state. -/
def csPhone : ConnSt := ⟨some .phone, some 1, true, true⟩

/-- Connection 1's record in the example state. -/
def csMatrix : ConnSt := ⟨some .matrix, some 1, true, true⟩

/-- Example hub state: pair 1 has phone 0 and matrix 1. -/
def stEx : Hub :=
  { reg := ⟨some 0, some 1, none, none⟩,
    clients := [0, 1],
    connSt := fun c => if c = 0 then some csPhone
                       else if c = 1 then some csMatrix else none }

/-- Reading a connection's record through isOpenConn. -/
theorem isOpenConn_eq {st : Hub} {c : Nat} {cs : ConnSt} (hc : st.connSt c = some cs) :
    st.isOpenConn c = cs.isOpen := by
  simp [Hub.isOpenConn, hc]

/-- updConn never touches the registry. -/
@[simp] theorem updConn_reg (st : Hub) (c : Nat) (f : ConnSt → ConnSt) :
    (updConn st c f).reg = st.reg := rfl

/-- removeClient never touches the registry. -/
@[simp] theorem removeClient_reg (st : Hub) (c : Nat) :
    (removeClient st c).reg = st.reg := rfl

/-- updConn never touches the client list. -/
@[simp] theorem updConn_clients (st : Hub) (c : Nat) (f : ConnSt → ConnSt) :
    (updConn st c f).clients = st.clients := rfl

/-- The record of a connection after updConn. -/
theorem updConn_connSt (st : Hub) (c : Nat) (f : ConnSt → ConnSt) (x : Nat) :
    (updConn st c f).connSt x = if x = c then (st.connSt x).map f else st.connSt x := rfl

/-- C6: a join whose role is outside VALID_ROLES, or whose pair is outside
VALID_PAIRS = [1, 2], draws exactly one error reply to the sender; the hub
state (registry included) is exactly unchanged and no status broadcast (or
any other action) is emitted. -/
theorem join_invalid_rejected (st : Hub) (c : Nat) (s : String) (p : Nat) (cs : ConnSt)
    (hc : st.connSt c = some cs) (hopen : cs.isOpen = true) :
    (roleOfString s = none →
      step st (.message c (.text (some (.join s p)))) =
        (st, [.send c (.error ("Invalid role: " ++ s))])) ∧
    (roleOfString s ≠ none → ¬(p = 1 ∨ p = 2) →
      step st (.message c (.text (some (.join s p)))) =
        (st, [.send c (.error ("Invalid pair: " ++ toString p))])) := by
  constructor
  · intro hrole
    simp [step, hc, handleMessage, handleJoin, hrole, sendJSON, isOpenConn_eq hc, hopen]
  · intro hrole hpair
    rcases h : roleOfString s with _ | r
    · exact absurd h hrole
    · simp [step, hc, handleMessage, handleJoin, h, hpair, sendJSON, isOpenConn_eq hc, hopen]

/-- Witness for C6: in the example state, join(referee, 1) and
join(phone, 3) each just return an error to the sender. -/
theorem join_invalid_rejected_witness :
    step stEx (.message 0 (.text (some (.join "referee" 1)))) =
      (stEx, [.send 0 (.error "Invalid role: referee")]) ∧
    step stEx (.message 0 (.text (some (.join "phone" 3)))) =
      (stEx, [.send 0 (.error "Invalid pair: 3")]) := by
  constructor
  · exact (join_invalid_rejected stEx 0 "referee" 1 csPhone rfl rfl).1 rfl
  · exact (join_invalid_rejected stEx 0 "phone" 3 csPhone rfl rfl).2
      (by simp [roleOfString]) (by omega)

/-- Connection 2's record in the two-pair example state. -/
def csPhone2 : ConnSt := ⟨some .phone, some 2, true, true⟩

/-- Example hub state with a phone in each pair: connection 0 is pair 1's
phone, connection 2 is pair 2's phone. -/
def stEx2 : Hub :=
  { reg := ⟨some 0, none, some 2, none⟩,
    clients := [0, 2],
    connSt := fun c => if c = 0 then some csPhone
                       else if c = 2 then some csPhone2 else none }

/-- C8: a drop control message from a connection assigned to pair 1 is
routed to pair 2's phone slot, and one from pair 2 to pair 1's phone slot,
delivered exactly when that occupant exists with an open socket; the
payload is forwarded verbatim and the hub state is untouched. -/
theorem drop_routed_to_counterpart (st : Hub) (c : Nat) (payload : String) (cs : ConnSt)
    (hc : st.connSt c = some cs) :
    (step st (.message c (.text (some (.dropMsg payload))))).1 = st ∧
    (cs.clientPair = some 1 →
      (∀ t, st.reg.get 2 .phone = some t →
        (st.isOpenConn t = true →
          (step st (.message c (.text (some (.dropMsg payload))))).2 =
            [.send t (.dropMsg payload)]) ∧
        (st.isOpenConn t = false →
          (step st (.message c (.text (some (.dropMsg payload))))).2 = [])) ∧
      (st.reg.get 2 .phone = none →
        (step st (.message c (.text (some (.dropMsg payload))))).2 = [])) ∧
    (cs.clientPair = some 2 →
      (∀ t, st.reg.get 1 .phone = some t →
        (st.isOpenConn t = true →
          (step st (.message c (.text (some (.dropMsg payload))))).2 =
            [.send t (.dropMsg payload)]) ∧
        (st.isOpenConn t = false →
          (step st (.message c (.text (some (.dropMsg payload))))).2 = [])) ∧
      (st.reg.get 1 .phone = none →
        (step st (.message c (.text (some (.dropMsg payload))))).2 = [])) := by
  refine ⟨?_, ?_, ?_⟩
  · simp only [step, hc, handleMessage]
  · intro hp
    constructor
    · intro t ht
      constructor <;> intro hop <;>
        simp [step, hc, handleMessage, hp, ht, hop]
    · intro ht
      simp [step, hc, handleMessage, hp, ht]
  · intro hp
    constructor
    · intro t ht
      constructor <;> intro hop <;>
        simp [step, hc, handleMessage, hp, ht, hop]
    · intro ht
      simp [step, hc, handleMessage, hp, ht]

/-- Witness for C8: with a phone in each pair, a drop from pair 1's phone
is delivered to pair 2's phone and vice versa. -/
theorem drop_routed_to_counterpart_witness :
    (step stEx2 (.message 0 (.text (some (.dropMsg "d"))))).2 = [.send 2 (.dropMsg "d")] ∧
    (step stEx2 (.message 2 (.text (some (.dropMsg "d"))))).2 = [.send 0 (.dropMsg "d")] := by
  constructor
  · exact (((drop_routed_to_counterpart stEx2 0 "d" csPhone rfl).2.1 rfl).1 2 rfl).1 rfl
  · exact (((drop_routed_to_counterpart stEx2 2 "d" csPhone2 rfl).2.2 rfl).1 0 rfl).1 rfl

/-- C3: a binary frame from a connection whose assignment is (phone, p) is
forwarded byte-for-byte (the very same data, to exactly one target) to
pair p's matrix occupant when that occupant exists and is open, and is
silently dropped (no action at all, so never queued and never sent to any
other pair) otherwise; a connection that is unassigned or holds the matrix
role never causes a forward; the hub state is never changed. -/
theorem binary_forwarded_to_display (st : Hub) (c : Nat) (d : List Nat) (cs : ConnSt)
    (hc : st.connSt c = some cs) :
    (step st (.message c (.binary d))).1 = st ∧
    (∀ p, cs.clientRole = some .phone → cs.clientPair = some p → p ≠ 0 →
      (∀ t, st.reg.get p .matrix = some t →
        (st.isOpenConn t = true →
          (step st (.message c (.binary d))).2 = [.sendBinary t d]) ∧
        (st.isOpenConn t = false →
          (step st (.message c (.binary d))).2 = [])) ∧
      (st.reg.get p .matrix = none → (step st (.message c (.binary d))).2 = [])) ∧
    (cs.clientRole ≠ some .phone → (step st (.message c (.binary d))).2 = []) ∧
    (cs.clientPair = none → (step st (.message c (.binary d))).2 = []) := by
  refine ⟨?_, ?_, ?_, ?_⟩
  · simp only [step, hc, handleMessage]
  · intro p hrole hp hp0
    constructor
    · intro t ht
      constructor <;> intro hop <;>
        simp [step, hc, handleMessage, hrole, hp, hp0, ht, hop]
    · intro ht
      simp [step, hc, handleMessage, hrole, hp, hp0, ht]
  · intro hrole
    rcases hr : cs.clientRole with _ | r
    · simp [step, hc, handleMessage, hr]
    · cases r
      · exact absurd hr hrole
      · rcases hp : cs.clientPair with _ | p <;>
          simp [step, hc, handleMessage, hr, hp]
  · intro hp
    rcases hr : cs.clientRole with _ | r
    · simp [step, hc, handleMessage, hr]
    · cases r <;> simp [step, hc, handleMessage, hr, hp]

/-- Witness for C3: in the example state a frame from phone 0 reaches
matrix 1 unchanged, and a frame from matrix 1 goes nowhere. -/
theorem binary_forwarded_to_display_witness :
    (step stEx (.message 0 (.binary [7, 8, 9]))).2 = [.sendBinary 1 [7, 8, 9]] ∧
    (step stEx (.message 1 (.binary [7, 8, 9]))).2 = [] := by
  constructor
  · exact (((binary_forwarded_to_display stEx 0 [7, 8, 9] csPhone rfl).2.1 1 rfl rfl
      (by omega)).1 1 rfl).1 rfl
  · exact (binary_forwarded_to_display stEx 1 [7, 8, 9] csMatrix rfl).2.2.1 (by simp [csMatrix])

/-- Counterexample to C4: an inbound text frame that is valid JSON but
carries the unrecognized type 'ping' draws no reply at all — the claimed
error reply to the sender never happens. -/
theorem unknown_type_no_error_reply :
    (step stEx (.message 0 (.text (some (.other "ping"))))).2 = [] := by
  decide

/-- C4 (amended): an inbound text frame that is invalid JSON draws exactly
one error('Invalid JSON') reply and changes no state; a frame with an
unrecognized type is silently ignored — no reply of any kind and no state
change.  Both hold in every connection state. -/
theorem malformed_error_unknown_silent (st : Hub) (c : Nat) (cs : ConnSt)
    (hc : st.connSt c = some cs) (hopen : cs.isOpen = true) :
    step st (.message c (.text none)) = (st, [.send c (.error "Invalid JSON")]) ∧
    ∀ ty, step st (.message c (.text (some (.other ty)))) = (st, []) := by
  constructor
  · simp [step, hc, handleMessage, sendJSON, isOpenConn_eq hc, hopen]
  · intro ty
    simp [step, hc, handleMessage]

/-- Witness for C4 (amended): invalid JSON from connection 0 draws the
error reply; an unknown 'hello' type draws nothing. -/
theorem malformed_error_unknown_silent_witness :
    step stEx (.message 0 (.text none)) = (stEx, [.send 0 (.error "Invalid JSON")]) ∧
    step stEx (.message 0 (.text (some (.other "hello")))) = (stEx, []) := by
  constructor
  · exact (malformed_error_unknown_silent stEx 0 csPhone rfl rfl).1
  · exact (malformed_error_unknown_silent stEx 0 csPhone rfl rfl).2 "hello"

/-- C10: when a connection's transport closes, its slot is cleared (with a
status broadcast) only when the slot still references that very
connection: if the slot has meanwhile been handed to someone else — or the
connection never held one — the registry is left exactly as it was and no
action (in particular no status broadcast) is emitted; if the slot does
still reference it, the slot is cleared and the pair's recomputed status
is broadcast. -/
theorem close_clears_slot_only_if_still_held (st : Hub) (c : Nat) (cs : ConnSt)
    (hc : st.connSt c = some cs) :
    (∀ cp cr, cs.clientPair = some cp → cs.clientRole = some cr →
      st.reg.get cp cr ≠ some c →
      (step st (.closeEvt c)).1.reg = st.reg ∧ (step st (.closeEvt c)).2 = []) ∧
    (cs.clientPair = none ∨ cs.clientRole = none →
      (step st (.closeEvt c)).1.reg = st.reg ∧ (step st (.closeEvt c)).2 = []) ∧
    (∀ cp cr, cs.clientPair = some cp → cs.clientRole = some cr →
      st.reg.get cp cr = some c →
      (step st (.closeEvt c)).1.reg.get cp cr = none ∧
      (step st (.closeEvt c)).2 =
        notifyPairStatus
          { (updConn st c fun x => { x with isOpen := false }) with
            reg := st.reg.set cp cr none } cp) := by
  have hreg : (updConn st c fun x => { x with isOpen := false }).reg = st.reg := rfl
  refine ⟨?_, ?_, ?_⟩
  · intro cp cr hcp hcr hne
    by_cases h0 : cp = 0
    · subst h0
      simp [step, handleClose, hc, hcp, hcr, removeClient]
    · simp [step, handleClose, hc, hcp, hcr, h0, removeClient, hreg, hne]
  · intro h
    rcases h with h | h
    · simp [step, handleClose, hc, h, removeClient]
    · rcases hcp : cs.clientPair with _ | cp <;>
        simp [step, handleClose, hc, hcp, h, removeClient]
  · intro cp cr hcp hcr heq
    have hcp0 : cp ≠ 0 := by
      intro h0
      rw [h0] at heq
      simp [Registry.get] at heq
    constructor
    · simp only [step, handleClose, hc, hcp, hcr]
      simp only [hcp0, heq, if_true, ite_true, removeClient_reg, ne_eq,
        not_false_eq_true]
      exact Registry.get_set_same st.reg cr none (Registry.get_some_pair heq)
    · simp [step, handleClose, hc, hcp, hcr, hcp0, hreg, heq, removeClient]

/-- The hub state after: connection 0 joins (phone, 1), then connection 1
joins (phone, 1) — evicting and replacing connection 0. -/
def stKicked : Hub :=
  run initHub [.connect 0, .message 0 (.text (some (.join "phone" 1))),
               .connect 1, .message 1 (.text (some (.join "phone" 1)))]

/-- Witness for C10: the evicted connection 0 still carries the stale
(pair 1, phone) assignment, the slot now belongs to connection 1, and
processing connection 0's close event leaves the registry untouched, emits
nothing, and keeps connection 1 in the slot. -/
theorem close_clears_slot_only_if_still_held_witness :
    stKicked.reg.get 1 .phone = some 1 ∧
    (step stKicked (.closeEvt 0)).1.reg = stKicked.reg ∧
    (step stKicked (.closeEvt 0)).2 = [] ∧
    (step stKicked (.closeEvt 0)).1.reg.get 1 .phone = some 1 := by
  have h := (close_clears_slot_only_if_still_held stKicked 0
    ⟨some .phone, some 1, true, false⟩ rfl).1 1 .phone rfl rfl (by decide)
  exact ⟨by decide, h.1, h.2, by rw [h.1]; decide⟩

/-- Actions that evict or tear down a connection: a kicked notification, a
close, or a terminate. -/
def isEvictionAct : Action → Bool
  | .send _ (.kicked _) => true
  | .close _ => true
  | .terminate _ => true
  | _ => false

/-- Membership in a sendJSON result pins down the action. -/
theorem mem_sendJSON {st : Hub} {w : Option Nat} {m : OutMsg} {a : Action}
    (ha : a ∈ sendJSON st w m) : ∃ t, w = some t ∧ a = .send t m := by
  rcases w with _ | t
  · simp [sendJSON] at ha
  · refine ⟨t, rfl, ?_⟩
    unfold sendJSON at ha
    split at ha <;> simp_all

/-- Every action of a status broadcast is a status send. -/
theorem mem_notifyPairStatus {st : Hub} {p : Nat} {a : Action}
    (ha : a ∈ notifyPairStatus st p) : ∃ t q b1 b2, a = .send t (.status q b1 b2) := by
  unfold notifyPairStatus at ha
  rcases List.mem_append.mp ha with h | h <;>
    rcases mem_sendJSON h with ⟨t, _, rfl⟩ <;> exact ⟨t, _, _, _, rfl⟩

/-- Every action the release phase of a join emits is a status send. -/
theorem removePrev_acts_status {st : Hub} {c : Nat} {a : Action}
    (ha : a ∈ (removePrev st c).2) : ∃ t q b1 b2, a = .send t (.status q b1 b2) := by
  unfold removePrev at ha
  split at ha
  · simp at ha
  · split at ha
    · split at ha
      · split at ha
        · exact mem_notifyPairStatus ha
        · simp at ha
      · simp at ha
    · simp at ha

/-- The release phase of a join never touches connection records. -/
theorem removePrev_connSt (st : Hub) (c : Nat) : (removePrev st c).1.connSt = st.connSt := by
  unfold removePrev
  split
  · rfl
  · split
    · split
      · split <;> rfl
      · rfl
    · rfl

/-- C2: a join onto a slot occupied by a different open connection o emits,
in this order: the kicked notification to o, then the close of o's
transport (notify-then-close), then only non-eviction actions, among them
the joined reply to the newcomer; the newcomer ends up holding the slot.
The kicked delivery is unique: no further kicked/close/terminate appears. -/
theorem second_join_kicks_then_replaces (st : Hub) (c o : Nat) (s : String) (r : Role)
    (p : Nat) (cs : ConnSt)
    (hc : st.connSt c = some cs) (hcOpen : cs.isOpen = true)
    (hs : roleOfString s = some r) (hp : p = 1 ∨ p = 2)
    (hocc : st.reg.get p r = some o) (hne : o ≠ c)
    (hoOpen : st.isOpenConn o = true) :
    ∃ rest,
      (step st (.message c (.text (some (.join s p))))).2 =
        .send o (.kicked "Replaced by new connection") :: .close o :: rest ∧
      rest.countP isEvictionAct = 0 ∧
      Action.send c (.joined r p) ∈ rest ∧
      (step st (.message c (.text (some (.join s p))))).1.reg.get p r = some c := by
  have hkick : kickStep st c p r =
      (updConn st o fun x => { x with isOpen := false },
       [.send o (.kicked "Replaced by new connection"), .close o]) := by
    simp [kickStep, hocc, hne, sendJSON, hoOpen]
  have hstep : step st (.message c (.text (some (.join s p)))) =
      ((registerStep (removePrev (kickStep st c p r).1 c).1 c p r).1,
        (kickStep st c p r).2 ++ (removePrev (kickStep st c p r).1 c).2 ++
          (registerStep (removePrev (kickStep st c p r).1 c).1 c p r).2) := by
    simp only [step, hc, handleMessage, handleJoin, hs, if_pos hp]
  have hco : ¬(c = o) := fun h => hne h.symm
  have hcs1 : (kickStep st c p r).1.connSt c = some cs := by
    rw [hkick]
    rw [updConn_connSt, if_neg hco]
    exact hc
  have hcs2 : (removePrev (kickStep st c p r).1 c).1.connSt c = some cs := by
    rw [removePrev_connSt]
    exact hcs1
  have hreg3 : (registerStep (removePrev (kickStep st c p r).1 c).1 c p r).1.reg =
      (removePrev (kickStep st c p r).1 c).1.reg.set p r (some c) := rfl
  have hjoin : (registerStep (removePrev (kickStep st c p r).1 c).1 c p r).2 =
      .send c (.joined r p) :: notifyPairStatus
        (registerStep (removePrev (kickStep st c p r).1 c).1 c p r).1 p := by
    simp [registerStep, sendJSON, Hub.isOpenConn, updConn, hcs2, hcOpen]
  refine ⟨(removePrev (kickStep st c p r).1 c).2 ++
    (registerStep (removePrev (kickStep st c p r).1 c).1 c p r).2, ?_, ?_, ?_, ?_⟩
  · rw [hstep, hkick]
    simp
  · rw [List.countP_eq_zero]
    intro a ha
    rcases List.mem_append.mp ha with h | h
    · rcases removePrev_acts_status h with ⟨t, q, b1, b2, rfl⟩
      simp [isEvictionAct]
    · rw [hjoin] at h
      rcases List.mem_cons.mp h with rfl | h
      · simp [isEvictionAct]
      · rcases mem_notifyPairStatus h with ⟨t, q, b1, b2, rfl⟩
        simp [isEvictionAct]
  · rw [hjoin]
    exact List.mem_append_right _ (List.mem_cons_self _ _)
  · rw [hstep]
    simp only [hreg3]
    exact Registry.get_set_same _ r (some c) hp

/-- A fresh, unassigned, open connection record. -/
def csFresh : ConnSt := ⟨none, none, true, true⟩

/-- Example hub state: pair 1 has phone 0 and matrix 1, and connection 2 is
attached but unassigned. -/
def stEx3 : Hub :=
  { reg := ⟨some 0, some 1, none, none⟩,
    clients := [0, 1, 2],
    connSt := fun c => if c = 0 then some csPhone
                       else if c = 1 then some csMatrix
                       else if c = 2 then some csFresh else none }

/-- Witness for C2: starting from the example state (phone 0, matrix 1 in
pair 1), connection 2 joining (phone, 1) makes the hub kick connection 0,
close it, and hand connection 2 the slot with a joined reply. -/
theorem second_join_kicks_then_replaces_witness :
    ∃ rest,
      (step stEx3 (.message 2 (.text (some (.join "phone" 1))))).2 =
        .send 0 (.kicked "Replaced by new connection") :: .close 0 :: rest ∧
      rest.countP isEvictionAct = 0 ∧
      Action.send 2 (.joined .phone 1) ∈ rest ∧
      (step stEx3 (.message 2 (.text (some (.join "phone" 1))))).1.reg.get 1 .phone =
        some 2 := by
  exact second_join_kicks_then_replaces stEx3 2 0 "phone" .phone 1
    ⟨none, none, true, true⟩ rfl rfl rfl (Or.inl rfl) rfl (by decide) rfl

/-- The opposite role in a pair. -/
def Role.other : Role → Role
  | .phone => .matrix
  | .matrix => .phone

/-- Is this action a status message delivered to connection t? -/
def isStatusSendTo (t : Nat) : Action → Bool
  | .send x (.status _ _ _) => x = t
  | _ => false

/-- Counterexample to C5: in the example state (phone 0 and matrix 1 in
pair 1, both open), connection 0 re-asserting its own slot with
join(phone, 1) makes the hub deliver TWO status broadcasts to its peer
(connection 1) within the one mutation — and the first of them reports the
phone slot as empty.  The claim's 'no more than one status broadcast,
never reporting the slot transiently empty' is false on this input. -/
theorem same_slot_rejoin_double_broadcast :
    ((step stEx (.message 0 (.text (some (.join "phone" 1))))).2.filter
        (isStatusSendTo 1)) =
      [.send 1 (.status 1 false true), .send 1 (.status 1 true true)] := by
  decide

/-- C5 (amended): a join by a connection re-asserting the very (pair, role)
it already holds evicts nothing (no kicked/close/terminate action) and
leaves the registry exactly as it was, but it is not a silent no-op: the
handler first releases and then re-registers the slot, so the peer in the
other role receives two status broadcasts for the one mutation, the first
reporting the re-asserted slot as empty and the second reporting it
occupied again; the sender still receives a joined reply. -/
theorem same_slot_rejoin_noop_but_two_broadcasts
    (st : Hub) (c o : Nat) (s : String) (r : Role) (p : Nat) (cs : ConnSt)
    (hc : st.connSt c = some cs) (hcOpen : cs.isOpen = true)
    (hs : roleOfString s = some r)
    (hcp : cs.clientPair = some p) (hcr : cs.clientRole = some r)
    (hslot : st.reg.get p r = some c)
    (hother : st.reg.get p r.other = some o)
    (hoc : o ≠ c) (hoOpen : st.isOpenConn o = true) :
    (step st (.message c (.text (some (.join s p))))).1.reg = st.reg ∧
    (step st (.message c (.text (some (.join s p))))).2.countP isEvictionAct = 0 ∧
    (step st (.message c (.text (some (.join s p))))).2.filter (isStatusSendTo o) =
      [.send o (.status p (r == .matrix) (r == .phone)),
       .send o (.status p true true)] ∧
    Action.send c (.joined r p) ∈ (step st (.message c (.text (some (.join s p))))).2 := by
  have hco : ¬(c = o) := fun h => hoc h.symm
  rcases hocs : st.connSt o with _ | ocs
  · simp [Hub.isOpenConn, hocs] at hoOpen
  · have hoIsOpen : ocs.isOpen = true := by
      simpa [Hub.isOpenConn, hocs] using hoOpen
    rcases hR : st.reg with ⟨f1, f2, f3, f4⟩
    rcases Registry.get_some_pair hslot with hp1 | hp1 <;> subst hp1 <;> cases r <;>
      rw [hR] at hslot hother <;>
      simp only [Registry.get, Role.other] at hslot hother <;>
      norm_num at hslot hother <;>
      refine ⟨?_, ?_, ?_, ?_⟩ <;>
        simp [step, hc, handleMessage, handleJoin, hs, kickStep, removePrev, registerStep,
          notifyPairStatus, sendJSON, Hub.isOpenConn, updConn, Registry.set, Registry.get,
          hR, hcp, hcr, hslot, hother, hoc, hco, hocs, hcOpen, hoIsOpen, isStatusSendTo,
          isEvictionAct]

/-- Witness for C5 (amended): evaluated in the example state for phone 0 of
pair 1 re-joining its own slot. -/
theorem same_slot_rejoin_noop_but_two_broadcasts_witness :
    (step stEx (.message 0 (.text (some (.join "phone" 1))))).1.reg = stEx.reg ∧
    (step stEx (.message 0 (.text (some (.join "phone" 1))))).2.countP isEvictionAct = 0 ∧
    (step stEx (.message 0 (.text (some (.join "phone" 1))))).2.filter (isStatusSendTo 1) =
      [.send 1 (.status 1 false true), .send 1 (.status 1 true true)] ∧
    Action.send 0 (.joined .phone 1) ∈
      (step stEx (.message 0 (.text (some (.join "phone" 1))))).2 :=
  same_slot_rejoin_noop_but_two_broadcasts stEx 0 1 "phone" .phone 1 csPhone
    rfl rfl rfl rfl rfl rfl rfl (by decide) rfl

/-- Bitwise-or of a left-shifted value with a small remainder is addition. -/
theorem lor_eq_add_of_lt {v : Nat} (a k : Nat) (hv : v < 2 ^ k) :
    (a <<< k) ||| v = 2 ^ k * a + v :=
  calc (a <<< k) ||| v = 2 ^ k * a ||| v := by rw [Nat.shiftLeft_eq, Nat.mul_comm]
    _ = 2 ^ k * a + v := (Nat.mul_add_lt_is_or hv a).symm

/-- Arithmetic reading of packRGB16 on 8-bit channels. -/
theorem packRGB16_arith (r g b : Nat) (hr : r < 256) (hg : g < 256) (hb : b < 256) :
    packRGB16 r g b = 2048 * (r / 8) + 32 * (g / 4) + b / 8 := by
  have m32 : ∀ x : Nat, x &&& 31 = x % 32 := fun x => Nat.and_pow_two_sub_one_eq_mod x 5
  have m64 : ∀ x : Nat, x &&& 63 = x % 64 := fun x => Nat.and_pow_two_sub_one_eq_mod x 6
  show ((r >>> 3 &&& 31) <<< 11) ||| ((g >>> 2 &&& 63) <<< 5) ||| (b >>> 3 &&& 31) = _
  rw [m32, m64, m32]
  have e1 : r >>> 3 % 32 = r / 8 := by omega
  have e2 : g >>> 2 % 64 = g / 4 := by omega
  have e3 : b >>> 3 % 32 = b / 8 := by omega
  rw [e1, e2, e3]
  rw [lor_eq_add_of_lt (r / 8) 11 (by omega)]
  have e4 : 2 ^ 11 * (r / 8) + (g / 4) <<< 5 = (64 * (r / 8) + g / 4) <<< 5 := by omega
  rw [e4, lor_eq_add_of_lt (64 * (r / 8) + g / 4) 5 (by omega)]
  omega

/-- C9: packing any 8-bit (r, g, b) into RGB565, splitting into the two
wire bytes, and unpacking on the matrix side yields exactly the channels
with their low 3/2/3 bits cleared (r / 8 * 8 is r with its low 3 bits
cleared, and so on) — within the 3/2/3-bit quantization error; the packed
5-bit red field is r / 8, so r = 255 packs to field 31 and unpacks to
248. -/
theorem rgb565_roundtrip (r g b : Nat) (hr : r < 256) (hg : g < 256) (hb : b < 256) :
    convert16to24bit (packHighByte (packRGB16 r g b)) (packLowByte (packRGB16 r g b)) =
      ⟨r / 8 * 8, g / 4 * 4, b / 8 * 8⟩ ∧
    (packRGB16 r g b) >>> 11 = r / 8 ∧
    r / 8 * 8 ≤ r ∧ r - r / 8 * 8 < 8 ∧
    g / 4 * 4 ≤ g ∧ g - g / 4 * 4 < 4 ∧
    b / 8 * 8 ≤ b ∧ b - b / 8 * 8 < 8 := by
  have m32 : ∀ x : Nat, x &&& 31 = x % 32 := fun x => Nat.and_pow_two_sub_one_eq_mod x 5
  have m64 : ∀ x : Nat, x &&& 63 = x % 64 := fun x => Nat.and_pow_two_sub_one_eq_mod x 6
  have m256 : ∀ x : Nat, x &&& 255 = x % 256 := fun x => Nat.and_pow_two_sub_one_eq_mod x 8
  have hP := packRGB16_arith r g b hr hg hb
  have hrgb : ((packRGB16 r g b >>> 8) &&& 255) <<< 8 ||| (packRGB16 r g b &&& 255) =
      packRGB16 r g b := by
    rw [m256, m256, lor_eq_add_of_lt _ 8 (by omega)]
    omega
  refine ⟨?_, by rw [hP]; omega, by omega, by omega, by omega, by omega, by omega, by omega⟩
  simp only [convert16to24bit, packHighByte, packLowByte, rgb24.mk.injEq]
  refine ⟨?_, ?_, ?_⟩
  · rw [hrgb, m32, hP]
    omega
  · rw [hrgb, m64, hP]
    omega
  · rw [hrgb, m32, hP]
    omega

/-- Witness for C9: full red (255, 0, 0) packs to red field 31 and unpacks
to (248, 0, 0). -/
theorem rgb565_roundtrip_witness :
    convert16to24bit (packHighByte (packRGB16 255 0 0)) (packLowByte (packRGB16 255 0 0)) =
      ⟨248, 0, 0⟩ ∧
    (packRGB16 255 0 0) >>> 11 = 31 := by
  have h := rgb565_roundtrip 255 0 0 (by decide) (by decide) (by decide)
  constructor
  · rw [h.1]
  · rw [h.2.1]

/-!  Heartbeat sweep characterization. -/

/-- What one sweep does to one connection record: a silent connection is
terminated (socket no longer open), a live one has its flag cleared. -/
def sweepTransform (cs : ConnSt) : ConnSt :=
  if cs.isAlive = false then { cs with isOpen := false } else { cs with isAlive := false }

/-- A sweep iteration leaves every other connection's record alone. -/
theorem sweepConn_connSt_ne (st : Hub) (c x : Nat) (hx : x ≠ c) :
    (sweepConn st c).1.connSt x = st.connSt x := by
  unfold sweepConn
  split
  · rfl
  · split <;> simp [updConn_connSt, hx]

/-- A sweep iteration applies sweepTransform to its own record. -/
theorem sweepConn_connSt_self (st : Hub) (c : Nat) :
    (sweepConn st c).1.connSt c = (st.connSt c).map sweepTransform := by
  unfold sweepConn
  rcases h : st.connSt c with _ | cs
  · simp [h]
  · by_cases ha : cs.isAlive = false <;>
      simp [updConn_connSt, h, sweepTransform, ha]

/-- A sweep iteration's actions only depend on the record it reads. -/
theorem sweepConn_acts_congr {st0 st1 : Hub} (c : Nat)
    (h : st0.connSt c = st1.connSt c) : (sweepConn st0 c).2 = (sweepConn st1 c).2 := by
  unfold sweepConn
  rw [h]
  rcases st1.connSt c with _ | cs
  · rfl
  · by_cases hb : cs.isAlive = false <;> simp [hb]

/-- A sweep iteration keeps the client list. -/
theorem sweepConn_clients (st : Hub) (c : Nat) :
    (sweepConn st c).1.clients = st.clients := by
  unfold sweepConn
  split
  · rfl
  · split <;> rfl

/-- The one action a sweep iteration can emit. -/
theorem mem_sweepConn_acts {st : Hub} {d : Nat} {a : Action}
    (ha : a ∈ (sweepConn st d).2) :
    ∃ cs, st.connSt d = some cs ∧
      ((cs.isAlive = false ∧ a = .terminate d) ∨ (cs.isAlive = true ∧ a = .ping d)) := by
  unfold sweepConn at ha
  rcases h : st.connSt d with _ | cs
  · rw [h] at ha
    simp at ha
  · rw [h] at ha
    refine ⟨cs, rfl, ?_⟩
    by_cases hb : cs.isAlive = false
    · simp [hb] at ha
      exact Or.inl ⟨hb, ha⟩
    · simp [hb] at ha
      exact Or.inr ⟨by revert hb; cases cs.isAlive <;> simp, ha⟩

/-- The sweep fold does not touch records of connections outside the list. -/
theorem sweepFold_connSt_not_mem (L : List Nat) (init : Hub × List Action) (x : Nat)
    (hx : x ∉ L) :
    (L.foldl (fun acc c =>
      let r := sweepConn acc.1 c
      (r.1, acc.2 ++ r.2)) init).1.connSt x = init.1.connSt x := by
  induction L generalizing init with
  | nil => rfl
  | cons d L ih =>
      have hxd : x ≠ d := fun h => hx (by simp [h])
      have hxL : x ∉ L := fun h => hx (by simp [h])
      rw [List.foldl_cons, ih _ hxL]
      exact sweepConn_connSt_ne init.1 d x hxd

/-- The sweep fold applies sweepTransform once to each listed connection. -/
theorem sweepFold_connSt_mem (L : List Nat) (init : Hub × List Action) (c : Nat)
    (hnd : L.Nodup) (hc : c ∈ L) :
    (L.foldl (fun acc c =>
      let r := sweepConn acc.1 c
      (r.1, acc.2 ++ r.2)) init).1.connSt c = (init.1.connSt c).map sweepTransform := by
  induction L generalizing init with
  | nil => cases hc
  | cons d L ih =>
      rw [List.foldl_cons]
      rcases List.mem_cons.mp hc with rfl | hcL
      · have hcL : c ∉ L := (List.nodup_cons.mp hnd).1
        rw [sweepFold_connSt_not_mem L _ c hcL]
        exact sweepConn_connSt_self init.1 c
      · have hcd : c ≠ d := fun h => (List.nodup_cons.mp hnd).1 (h ▸ hcL)
        rw [ih _ (List.nodup_cons.mp hnd).2 hcL]
        rw [sweepConn_connSt_ne init.1 d c hcd]

/-- On a duplicate-free client list the sweep's action log is the
concatenation of each connection's own verdict, judged on the pre-sweep
state. -/
theorem sweepFold_acts (st : Hub) (L : List Nat) (st0 : Hub) (acc : List Action)
    (hnd : L.Nodup) (hagree : ∀ c ∈ L, st0.connSt c = st.connSt c) :
    (L.foldl (fun acc c =>
      let r := sweepConn acc.1 c
      (r.1, acc.2 ++ r.2)) (st0, acc)).2 =
      acc ++ L.flatMap (fun c => (sweepConn st c).2) := by
  induction L generalizing st0 acc with
  | nil => simp
  | cons d L ih =>
      rw [List.foldl_cons]
      have hd : st0.connSt d = st.connSt d := hagree d (by simp)
      have hacts : (sweepConn st0 d).2 = (sweepConn st d).2 := sweepConn_acts_congr d hd
      have hagree' : ∀ c ∈ L, (sweepConn st0 d).1.connSt c = st.connSt c := by
        intro c hcL
        have hcd : c ≠ d := fun h => (List.nodup_cons.mp hnd).1 (h ▸ hcL)
        rw [sweepConn_connSt_ne st0 d c hcd]
        exact hagree c (by simp [hcL])
      rw [ih _ _ (List.nodup_cons.mp hnd).2 hagree']
      simp [hacts]

/-- The kick phase never changes a liveness flag. -/
theorem kickStep_isAlive (st : Hub) (d : Nat) (p : Nat) (r : Role) (c : Nat) :
    ((kickStep st d p r).1.connSt c).map ConnSt.isAlive =
      (st.connSt c).map ConnSt.isAlive := by
  unfold kickStep
  split
  · split
    · rw [updConn_connSt]
      split
      · rcases st.connSt c with _ | cs <;> simp
      · rfl
    · rfl
  · rfl

/-- The register phase never changes a liveness flag. -/
theorem registerStep_isAlive (st : Hub) (d : Nat) (p : Nat) (r : Role) (c : Nat) :
    ((registerStep st d p r).1.connSt c).map ConnSt.isAlive =
      (st.connSt c).map ConnSt.isAlive := by
  unfold registerStep
  rw [updConn_connSt]
  split
  · rcases st.connSt c with _ | cs <;> simp
  · rfl

/-- A message handler never changes any connection's liveness flag. -/
theorem handleMessage_isAlive (st : Hub) (d : Nat) (f : Frame) (c : Nat) :
    ((handleMessage st d f).1.connSt c).map ConnSt.isAlive =
      (st.connSt c).map ConnSt.isAlive := by
  rcases f with d' | m
  · rfl
  · rcases m with _ | m
    · rfl
    · rcases m with payload | ⟨s, p⟩ | ty
      · rfl
      · show ((handleJoin st d s p).1.connSt c).map ConnSt.isAlive = _
        unfold handleJoin
        split
        · rfl
        · split
          · rw [registerStep_isAlive, removePrev_connSt, kickStep_isAlive]
          · rfl
      · rfl

/-- The close handler only removes the closing connection's record. -/
theorem handleClose_connSt_ne (st : Hub) (d c : Nat) (hcd : c ≠ d) :
    (handleClose st d).1.connSt c = st.connSt c := by
  unfold handleClose
  split
  · rfl
  · split
    all_goals try split
    all_goals try split
    all_goals (unfold removeClient; simp [hcd, updConn_connSt])

/-- After processing its close event a connection is forgotten. -/
theorem handleClose_connSt_self (st : Hub) (d : Nat) :
    (handleClose st d).1.connSt d = none := by
  unfold handleClose
  split
  · assumption
  · split
    all_goals try split
    all_goals try split
    all_goals (unfold removeClient; simp)

/-- One sweep leaves every connection's flag cleared. -/
theorem sweepTransform_isAlive (cs : ConnSt) : (sweepTransform cs).isAlive = false := by
  unfold sweepTransform
  split
  · assumption
  · rfl

/-- A connection whose record, if any, has the liveness flag set. -/
def AliveOk (st : Hub) (c : Nat) : Prop :=
  ∀ cs, st.connSt c = some cs → cs.isAlive = true

/-- A connection whose record, if any, has the liveness flag cleared. -/
def DeadOk (st : Hub) (c : Nat) : Prop :=
  ∀ cs, st.connSt c = some cs → cs.isAlive = false

/-- The sweep fold keeps a cleared flag cleared (or the record absent). -/
theorem sweepFold_deadOk (L : List Nat) (init : Hub × List Action) (c : Nat)
    (h : ∀ cs, init.1.connSt c = some cs → cs.isAlive = false) :
    ∀ cs, ((L.foldl (fun acc c =>
      let r := sweepConn acc.1 c
      (r.1, acc.2 ++ r.2)) init).1.connSt c = some cs) → cs.isAlive = false := by
  induction L generalizing init with
  | nil => exact h
  | cons d L ih =>
      rw [List.foldl_cons]
      apply ih
      by_cases hcd : c = d
      · subst hcd
        rw [show ((sweepConn init.1 c).1, init.2 ++ (sweepConn init.1 c).2).1.connSt c =
            (sweepConn init.1 c).1.connSt c from rfl, sweepConn_connSt_self]
        intro cs hcs
        rcases Option.map_eq_some'.mp hcs with ⟨cs0, _, rfl⟩
        exact sweepTransform_isAlive cs0
      · intro cs hcs
        rw [show ((sweepConn init.1 d).1, init.2 ++ (sweepConn init.1 d).2).1.connSt c =
            (sweepConn init.1 d).1.connSt c from rfl, sweepConn_connSt_ne _ _ _ hcd] at hcs
        exact h cs hcs

/-- Every event other than a sweep preserves a set liveness flag. -/
theorem aliveOk_step (st : Hub) (c : Nat) (e : Event) (h : AliveOk st c)
    (he : e ≠ .sweep) : AliveOk (step st e).1 c := by
  intro cs' hcs'
  rcases e with d | ⟨d, f⟩ | d | d | _
  · rw [step] at hcs'
    split at hcs'
    · exact h cs' hcs'
    · by_cases hcd : c = d
      · subst hcd
        simp at hcs'
        rw [← hcs']
      · simp [hcd] at hcs'
        exact h cs' hcs'
  · rw [step] at hcs'
    split at hcs'
    · exact h cs' hcs'
    · have hproj := handleMessage_isAlive st d f c
      rw [hcs'] at hproj
      rcases hsrc : st.connSt c with _ | cs0
      · rw [hsrc] at hproj
        simp at hproj
      · rw [hsrc] at hproj
        simp at hproj
        rw [hproj]
        exact h cs0 hsrc
  · rw [step, updConn_connSt] at hcs'
    by_cases hcd : c = d
    · rw [if_pos hcd] at hcs'
      rcases Option.map_eq_some'.mp hcs' with ⟨cs0, _, rfl⟩
      rfl
    · rw [if_neg hcd] at hcs'
      exact h cs' hcs'
  · by_cases hcd : c = d
    · subst hcd
      rw [step, handleClose_connSt_self] at hcs'
      cases hcs'
    · rw [step, handleClose_connSt_ne st d c hcd] at hcs'
      exact h cs' hcs'
  · exact absurd rfl he

/-- A pong sets the sender's liveness flag. -/
theorem aliveOk_pong (st : Hub) (c : Nat) : AliveOk (step st (.pong c)).1 c := by
  intro cs' hcs'
  rw [step, updConn_connSt, if_pos rfl] at hcs'
  rcases Option.map_eq_some'.mp hcs' with ⟨cs0, _, rfl⟩
  rfl

/-- Without a pong or a reconnect from c, a cleared flag stays cleared. -/
theorem deadOk_step (st : Hub) (c : Nat) (e : Event) (h : DeadOk st c)
    (hp : e ≠ .pong c) (hcon : e ≠ .connect c) : DeadOk (step st e).1 c := by
  intro cs' hcs'
  rcases e with d | ⟨d, f⟩ | d | d | _
  · have hcd : c ≠ d := fun hh => hcon (by rw [hh])
    rw [step] at hcs'
    split at hcs'
    · exact h cs' hcs'
    · simp [hcd] at hcs'
      exact h cs' hcs'
  · rw [step] at hcs'
    split at hcs'
    · exact h cs' hcs'
    · have hproj := handleMessage_isAlive st d f c
      rw [hcs'] at hproj
      rcases hsrc : st.connSt c with _ | cs0
      · rw [hsrc] at hproj
        simp at hproj
      · rw [hsrc] at hproj
        simp at hproj
        rw [hproj]
        exact h cs0 hsrc
  · have hcd : c ≠ d := fun hh => hp (by rw [hh])
    rw [step, updConn_connSt, if_neg hcd] at hcs'
    exact h cs' hcs'
  · by_cases hcd : c = d
    · subst hcd
      rw [step, handleClose_connSt_self] at hcs'
      cases hcs'
    · rw [step, handleClose_connSt_ne st d c hcd] at hcs'
      exact h cs' hcs'
  · exact sweepFold_deadOk st.clients (st, []) c h cs' hcs'

/-- AliveOk persists through any sweep-free run. -/
theorem aliveOk_run (st : Hub) (c : Nat) (es : List Event) (h : AliveOk st c)
    (hes : ∀ e ∈ es, e ≠ Event.sweep) : AliveOk (run st es) c := by
  induction es generalizing st with
  | nil => exact h
  | cons e es ih =>
      exact ih _ (aliveOk_step st c e h (hes e (by simp)))
        (fun e' he' => hes e' (by simp [he']))

/-- DeadOk persists through any run free of pongs and reconnects from c. -/
theorem deadOk_run (st : Hub) (c : Nat) (es : List Event) (h : DeadOk st c)
    (hes : ∀ e ∈ es, e ≠ Event.pong c ∧ e ≠ Event.connect c) : DeadOk (run st es) c := by
  induction es generalizing st with
  | nil => exact h
  | cons e es ih =>
      exact ih _ (deadOk_step st c e h (hes e (by simp)).1 (hes e (by simp)).2)
        (fun e' he' => hes e' (by simp [he']))

/-- On a duplicate-free client list, the sweep's actions are each client's
own verdict. -/
theorem sweepAll_acts (st : Hub) (hnd : st.clients.Nodup) :
    (sweepAll st).2 = st.clients.flatMap (fun d => (sweepConn st d).2) := by
  have h := sweepFold_acts st st.clients st [] hnd (fun _ _ => rfl)
  simpa [sweepAll] using h

/-- A silent connection draws a terminate (and no ping) from the sweep. -/
theorem sweepAll_dead (st : Hub) (hnd : st.clients.Nodup) (c : Nat) (cs : ConnSt)
    (hc : c ∈ st.clients) (hcs : st.connSt c = some cs) (hdead : cs.isAlive = false) :
    Action.terminate c ∈ (sweepAll st).2 ∧ Action.ping c ∉ (sweepAll st).2 := by
  have hacts := sweepAll_acts st hnd
  have hself : (sweepConn st c).2 = [.terminate c] := by
    unfold sweepConn
    rw [hcs]
    simp [hdead]
  constructor
  · rw [hacts]
    exact List.mem_flatMap.mpr ⟨c, hc, by rw [hself]; simp⟩
  · rw [hacts]
    intro hmem
    rcases List.mem_flatMap.mp hmem with ⟨d, _, hin⟩
    rcases mem_sweepConn_acts hin with ⟨cs', hcs', hor⟩
    rcases hor with ⟨_, heq⟩ | ⟨halive, heq⟩
    · cases heq
    · cases heq
      rw [hcs] at hcs'
      cases hcs'
      rw [hdead] at halive
      cases halive

/-- A live connection draws a ping (and no terminate) from the sweep. -/
theorem sweepAll_live (st : Hub) (hnd : st.clients.Nodup) (c : Nat) (cs : ConnSt)
    (hc : c ∈ st.clients) (hcs : st.connSt c = some cs) (halive : cs.isAlive = true) :
    Action.ping c ∈ (sweepAll st).2 ∧ Action.terminate c ∉ (sweepAll st).2 := by
  have hacts := sweepAll_acts st hnd
  have hself : (sweepConn st c).2 = [.ping c] := by
    unfold sweepConn
    rw [hcs]
    simp [halive]
  constructor
  · rw [hacts]
    exact List.mem_flatMap.mpr ⟨c, hc, by rw [hself]; simp⟩
  · rw [hacts]
    intro hmem
    rcases List.mem_flatMap.mp hmem with ⟨d, _, hin⟩
    rcases mem_sweepConn_acts hin with ⟨cs', hcs', hor⟩
    rcases hor with ⟨hdead, heq⟩ | ⟨_, heq⟩
    · cases heq
      rw [hcs] at hcs'
      cases hcs'
      rw [halive] at hdead
      cases hdead
    · cases heq

/-- C7: each sweep force-terminates every known connection whose liveness
flag is still false (marking its socket closed; the slot release and
status broadcast then happen through its close event, see the close
handler), and clears the flag and pings every connection whose flag is
true; consequently a connection that is not heard from between two sweeps
(no pong, no reconnect) and still exists at the second sweep is terminated
by it, while a connection that acknowledged (pong) after a sweep is never
terminated by the next sweep. -/
theorem heartbeat_monitor_behavior (st : Hub) (hnd : st.clients.Nodup) :
    (∀ c ∈ st.clients, ∀ cs, st.connSt c = some cs →
      (cs.isAlive = false →
        Action.terminate c ∈ (step st .sweep).2 ∧
        Action.ping c ∉ (step st .sweep).2 ∧
        (step st .sweep).1.connSt c = some { cs with isOpen := false }) ∧
      (cs.isAlive = true →
        Action.ping c ∈ (step st .sweep).2 ∧
        Action.terminate c ∉ (step st .sweep).2 ∧
        (step st .sweep).1.connSt c = some { cs with isAlive := false })) ∧
    (∀ es c, c ∈ st.clients → (∃ cs, st.connSt c = some cs) →
      (∀ e ∈ es, e ≠ Event.pong c ∧ e ≠ Event.connect c) →
      (∀ cs', (run (step st .sweep).1 es).connSt c = some cs' → cs'.isAlive = false) ∧
      (c ∈ (run (step st .sweep).1 es).clients →
        (run (step st .sweep).1 es).clients.Nodup →
        (∃ cs', (run (step st .sweep).1 es).connSt c = some cs') →
        Action.terminate c ∈ (sweepAll (run (step st .sweep).1 es)).2)) ∧
    (∀ es1 es2 c, (∀ e ∈ es2, e ≠ Event.sweep) →
      (run st (es1 ++ .pong c :: es2)).clients.Nodup →
      Action.terminate c ∉ (sweepAll (run st (es1 ++ .pong c :: es2))).2) := by
  have hstep : step st .sweep = sweepAll st := rfl
  refine ⟨?_, ?_, ?_⟩
  · intro c hc cs hcs
    constructor
    · intro hdead
      have hmem := sweepAll_dead st hnd c cs hc hcs hdead
      refine ⟨by rw [hstep]; exact hmem.1, by rw [hstep]; exact hmem.2, ?_⟩
      rw [hstep]
      show (sweepAll st).1.connSt c = _
      have hrec := sweepFold_connSt_mem st.clients (st, []) c hnd hc
      rw [show (sweepAll st).1 = (st.clients.foldl (fun acc c =>
        let r := sweepConn acc.1 c
        (r.1, acc.2 ++ r.2)) (st, [])).1 from rfl, hrec, hcs]
      simp [sweepTransform, hdead]
    · intro halive
      have hmem := sweepAll_live st hnd c cs hc hcs halive
      refine ⟨by rw [hstep]; exact hmem.1, by rw [hstep]; exact hmem.2, ?_⟩
      rw [hstep]
      have hrec := sweepFold_connSt_mem st.clients (st, []) c hnd hc
      rw [show (sweepAll st).1 = (st.clients.foldl (fun acc c =>
        let r := sweepConn acc.1 c
        (r.1, acc.2 ++ r.2)) (st, [])).1 from rfl, hrec, hcs]
      simp [sweepTransform, halive]
  · intro es c hc ⟨cs, hcs⟩ hes
    have hdead1 : DeadOk (step st .sweep).1 c := by
      intro cs' hcs'
      rw [hstep] at hcs'
      have hrec := sweepFold_connSt_mem st.clients (st, []) c hnd hc
      rw [show (sweepAll st).1 = (st.clients.foldl (fun acc c =>
        let r := sweepConn acc.1 c
        (r.1, acc.2 ++ r.2)) (st, [])).1 from rfl, hrec, hcs] at hcs'
      cases hcs'
      exact sweepTransform_isAlive cs
    have hdead2 : DeadOk (run (step st .sweep).1 es) c :=
      deadOk_run _ c es hdead1 hes
    refine ⟨hdead2, ?_⟩
    intro hc2 hnd2 ⟨cs', hcs'⟩
    exact (sweepAll_dead _ hnd2 c cs' hc2 hcs' (hdead2 cs' hcs')).1
  · intro es1 es2 c hes2 hnd2
    have hrun : run st (es1 ++ .pong c :: es2) =
        run (step (run st es1) (.pong c)).1 es2 := by
      rw [run, List.foldl_append, List.foldl_cons]
      rfl
    have halive : AliveOk (run st (es1 ++ .pong c :: es2)) c := by
      rw [hrun]
      exact aliveOk_run _ c es2 (aliveOk_pong (run st es1) c) hes2
    intro hmem
    rw [sweepAll_acts _ hnd2] at hmem
    rcases List.mem_flatMap.mp hmem with ⟨d, _, hin⟩
    rcases mem_sweepConn_acts hin with ⟨cs', hcs', hor⟩
    rcases hor with ⟨hdead, heq⟩ | ⟨_, heq⟩
    · cases heq
      rw [halive cs' hcs'] at hdead
      cases hdead
    · cases heq

/-- A connection that never answered the last probe. -/
def csDead : ConnSt := ⟨none, none, false, true⟩

/-- Heartbeat example state: connection 0 acknowledged the last probe,
connection 1 did not. -/
def stHB : Hub :=
  { reg := ⟨none, none, none, none⟩,
    clients := [0, 1],
    connSt := fun c => if c = 0 then some csFresh
                       else if c = 1 then some csDead else none }

/-- Witness for C7: in the heartbeat example the sweep terminates silent
connection 1 and pings live connection 0; a second sweep with no pong in
between terminates connection 0 too, whereas after a pong connection 0 is
not terminated. -/
theorem heartbeat_monitor_behavior_witness :
    Action.terminate 1 ∈ (step stHB .sweep).2 ∧
    Action.ping 0 ∈ (step stHB .sweep).2 ∧
    Action.terminate 0 ∉ (step stHB .sweep).2 ∧
    Action.terminate 0 ∈ (sweepAll (run (step stHB .sweep).1 [])).2 ∧
    Action.terminate 0 ∉ (sweepAll (run stHB ([] ++ .pong 0 :: []))).2 := by
  have h := heartbeat_monitor_behavior stHB (by decide)
  refine ⟨((h.1 1 (by decide) csDead rfl).1 rfl).1,
          ((h.1 0 (by decide) csFresh rfl).2 rfl).1,
          ((h.1 0 (by decide) csFresh rfl).2 rfl).2.1, ?_, ?_⟩
  · exact (h.2.1 [] 0 (by decide) ⟨csFresh, rfl⟩ (by simp)).2 (by decide) (by decide)
      ⟨⟨none, none, false, true⟩, rfl⟩
  · exact h.2.2 [] [] 0 (by simp) (by decide)

/-!  The slot-exclusivity invariant (C1). -/

/-- A connection record's slot coordinate. -/
def fieldsOf (cs : ConnSt) : Option Nat × Option Role := (cs.clientPair, cs.clientRole)

/-- Every occupied slot is backed by a live record whose closure variables
point back at exactly that slot.  This is the inductive invariant behind
slot exclusivity: since a record stores one coordinate, a connection can
back at most one slot. -/
def SlotOk (st : Hub) : Prop :=
  ∀ p r c, st.reg.get p r = some c →
    ∃ cs, st.connSt c = some cs ∧ cs.clientPair = some p ∧ cs.clientRole = some r

/-- SlotOk only looks at the registry and the slot coordinates of records. -/
theorem slotOk_of_projEq {st st' : Hub} (hreg : st'.reg = st.reg)
    (hf : ∀ x, (st'.connSt x).map fieldsOf = (st.connSt x).map fieldsOf)
    (h : SlotOk st) : SlotOk st' := by
  intro p r c hc
  rw [hreg] at hc
  rcases h p r c hc with ⟨cs, hcs, hp, hr⟩
  have hfc := hf c
  rw [hcs] at hfc
  rcases hx : st'.connSt c with _ | cs'
  · rw [hx] at hfc
    simp at hfc
  · rw [hx] at hfc
    simp [fieldsOf, Prod.ext_iff] at hfc
    exact ⟨cs', rfl, by rw [hfc.1, hp], by rw [hfc.2, hr]⟩

/-- The kick phase does not touch the registry. -/
theorem kickStep_reg (st : Hub) (d : Nat) (p : Nat) (r : Role) :
    (kickStep st d p r).1.reg = st.reg := by
  unfold kickStep
  split
  · split <;> rfl
  · rfl

/-- The kick phase does not touch slot coordinates. -/
theorem kickStep_fields (st : Hub) (d : Nat) (p : Nat) (r : Role) (x : Nat) :
    ((kickStep st d p r).1.connSt x).map fieldsOf = (st.connSt x).map fieldsOf := by
  unfold kickStep
  split
  · split
    · rw [updConn_connSt]
      split
      · rcases st.connSt x with _ | cs <;> simp [fieldsOf]
      · rfl
    · rfl
  · rfl

/-- Releasing the joiner's previous slot preserves the invariant. -/
theorem slotOk_removePrev {st : Hub} (d : Nat) (h : SlotOk st) :
    SlotOk (removePrev st d).1 := by
  unfold removePrev
  split
  · exact h
  · split
    · rename_i cp cr hcp hcr
      split
      · split
        · rename_i h0 hget
          intro p' r' c' hc'
          by_cases hpr : cp = p' ∧ cr = r'
          · rcases hpr with ⟨rfl, rfl⟩
            rw [show ({ st with reg := st.reg.set cp cr none } : Hub).reg =
              st.reg.set cp cr none from rfl] at hc'
            rw [Registry.get_set_same _ _ _ (Registry.get_some_pair hget)] at hc'
            cases hc'
          · rw [show ({ st with reg := st.reg.set cp cr none } : Hub).reg =
              st.reg.set cp cr none from rfl] at hc'
            rw [Registry.get_set_ne _ _ hpr] at hc'
            exact h p' r' c' hc'
        · exact h
      · exact h
    · exact h

/-- If no release happened, the joiner's record coordinates do not match
any occupied slot that holds it; helper: in a SlotOk state, the only slot
that can hold d is the one its record names. -/
theorem slotOk_unique_slot {st : Hub} (h : SlotOk st) {d q : Nat} {s' : Role}
    (hq : st.reg.get q s' = some d) :
    ∃ cs, st.connSt d = some cs ∧ cs.clientPair = some q ∧ cs.clientRole = some s' :=
  h q s' d hq

/-- After the release phase, no slot references the joining connection. -/
theorem removePrev_clears {st : Hub} (d : Nat) (h : SlotOk st) {ds : ConnSt}
    (hd : st.connSt d = some ds) :
    ∀ q s', (removePrev st d).1.reg.get q s' ≠ some d := by
  intro q s' hq
  unfold removePrev at hq
  split at hq
  · rename_i heq
    rw [hd] at heq
    cases heq
  · rename_i cs heq
    rw [hd] at heq
    injection heq with heq
    subst heq
    split at hq
    · rename_i cp cr hcp hcr
      split at hq
      · rename_i h0
        split at hq
        · rename_i hget
          by_cases hpr : cp = q ∧ cr = s'
          · rcases hpr with ⟨rfl, rfl⟩
            rw [show ({ st with reg := st.reg.set cp cr none } : Hub).reg =
              st.reg.set cp cr none from rfl] at hq
            rw [Registry.get_set_same _ _ _ (Registry.get_some_pair hget)] at hq
            cases hq
          · rw [show ({ st with reg := st.reg.set cp cr none } : Hub).reg =
              st.reg.set cp cr none from rfl] at hq
            rw [Registry.get_set_ne _ _ hpr] at hq
            rcases slotOk_unique_slot h hq with ⟨cs', hcs', hp', hr'⟩
            rw [hd] at hcs'
            injection hcs' with hcs'
            subst hcs'
            rw [hcp] at hp'
            rw [hcr] at hr'
            injection hp' with hp'
            injection hr' with hr'
            exact hpr ⟨hp', hr'⟩
        · rename_i hget
          rcases slotOk_unique_slot h hq with ⟨cs', hcs', hp', hr'⟩
          rw [hd] at hcs'
          injection hcs' with hcs'
          subst hcs'
          rw [hcp] at hp'
          rw [hcr] at hr'
          injection hp' with hp'
          injection hr' with hr'
          rw [← hp', ← hr'] at hq
          exact hget hq
      · rename_i h0
        simp at h0
        rcases slotOk_unique_slot h hq with ⟨cs', hcs', hp', _⟩
        rw [hd] at hcs'
        injection hcs' with hcs'
        subst hcs'
        rw [hcp] at hp'
        injection hp' with hp'
        rw [← hp', h0] at hq
        simp [Registry.get] at hq
    · rename_i hwild
      rcases slotOk_unique_slot h hq with ⟨cs', hcs', hp', hr'⟩
      rw [hd] at hcs'
      injection hcs' with hcs'
      subst hcs'
      exact hwild _ _ hp' hr'

/-- The kick phase never touches the joiner's own record. -/
theorem kickStep_connSt_self (st : Hub) (d : Nat) (p : Nat) (r : Role) :
    (kickStep st d p r).1.connSt d = st.connSt d := by
  unfold kickStep
  split
  · rename_i o hocc
    split
    · rename_i hne
      rw [updConn_connSt, if_neg (fun hh => hne (by rw [hh]))]
    · rfl
  · rfl

/-- Registering the joiner restores the invariant, given that no slot
still references it. -/
theorem slotOk_registerStep {st : Hub} (d : Nat) (p : Nat) (r : Role)
    (hp : p = 1 ∨ p = 2) (h : SlotOk st) {ds : ConnSt} (hd : st.connSt d = some ds)
    (hclear : ∀ q s', st.reg.get q s' ≠ some d) :
    SlotOk (registerStep st d p r).1 := by
  intro q s' c' hc'
  have hreg : (registerStep st d p r).1.reg = st.reg.set p r (some d) := rfl
  rw [hreg] at hc'
  by_cases hqs : p = q ∧ r = s'
  · rcases hqs with ⟨rfl, rfl⟩
    rw [Registry.get_set_same _ _ _ hp] at hc'
    injection hc' with hc'
    subst hc'
    refine ⟨{ ds with clientRole := some r, clientPair := some p }, ?_, rfl, rfl⟩
    show (updConn _ d _).connSt d = _
    rw [updConn_connSt, if_pos rfl]
    show (st.connSt d).map _ = _
    rw [hd]
    rfl
  · rw [Registry.get_set_ne _ _ hqs] at hc'
    have hne : c' ≠ d := fun hh => hclear q s' (hh ▸ hc')
    rcases h q s' c' hc' with ⟨cs', hcs', hp', hr'⟩
    refine ⟨cs', ?_, hp', hr'⟩
    show (updConn _ d _).connSt c' = _
    rw [updConn_connSt, if_neg hne]
    exact hcs'

/-- A join preserves the invariant. -/
theorem slotOk_handleJoin {st : Hub} (d : Nat) (s : String) (p : Nat)
    {ds : ConnSt} (hd : st.connSt d = some ds) (h : SlotOk st) :
    SlotOk (handleJoin st d s p).1 := by
  unfold handleJoin
  split
  · exact h
  · rename_i r hrole
    split
    · rename_i hp
      have h1 : SlotOk (kickStep st d p r).1 :=
        slotOk_of_projEq (kickStep_reg st d p r) (fun x => kickStep_fields st d p r x) h
      have hd1 : (kickStep st d p r).1.connSt d = some ds := by
        rw [kickStep_connSt_self]
        exact hd
      have h2 : SlotOk (removePrev (kickStep st d p r).1 d).1 := slotOk_removePrev d h1
      have hd2 : (removePrev (kickStep st d p r).1 d).1.connSt d = some ds := by
        rw [removePrev_connSt]
        exact hd1
      have hclear := removePrev_clears d h1 hd1
      exact slotOk_registerStep d p r hp h2 hd2 hclear
    · exact h

/-- A sweep iteration keeps the registry. -/
theorem sweepConn_reg (st : Hub) (c : Nat) : (sweepConn st c).1.reg = st.reg := by
  unfold sweepConn
  split
  · rfl
  · split <;> rfl

/-- The whole sweep keeps the registry. -/
theorem sweepFold_reg (L : List Nat) (init : Hub × List Action) :
    (L.foldl (fun acc c =>
      let r := sweepConn acc.1 c
      (r.1, acc.2 ++ r.2)) init).1.reg = init.1.reg := by
  induction L generalizing init with
  | nil => rfl
  | cons d L ih => rw [List.foldl_cons, ih]; exact sweepConn_reg init.1 d

/-- A sweep iteration keeps every slot coordinate. -/
theorem sweepConn_fields (st : Hub) (d : Nat) (x : Nat) :
    ((sweepConn st d).1.connSt x).map fieldsOf = (st.connSt x).map fieldsOf := by
  by_cases hxd : x = d
  · subst hxd
    rw [sweepConn_connSt_self]
    rcases st.connSt x with _ | cs
    · rfl
    · show some (fieldsOf (sweepTransform cs)) = some (fieldsOf cs)
      unfold sweepTransform
      split <;> rfl
  · rw [sweepConn_connSt_ne st d x hxd]

/-- The whole sweep keeps every slot coordinate. -/
theorem sweepFold_fields (L : List Nat) (init : Hub × List Action) (x : Nat) :
    ((L.foldl (fun acc c =>
      let r := sweepConn acc.1 c
      (r.1, acc.2 ++ r.2)) init).1.connSt x).map fieldsOf =
      (init.1.connSt x).map fieldsOf := by
  induction L generalizing init with
  | nil => rfl
  | cons d L ih => rw [List.foldl_cons, ih]; exact sweepConn_fields init.1 d x

/-- A close preserves the invariant. -/
theorem slotOk_handleClose {st : Hub} (c : Nat) (h : SlotOk st) :
    SlotOk (handleClose st c).1 := by
  unfold handleClose
  split
  · exact h
  · rename_i cs hcs
    split
    · rename_i cp cr hcp hcr
      split
      · rename_i h0
        split
        · rename_i hget
          intro q s' c' hc'
          have hreg : (removeClient
              { updConn st c (fun x => { x with isOpen := false }) with
                reg := st.reg.set cp cr none } c).reg = st.reg.set cp cr none := rfl
          rw [show (removeClient
              { updConn st c (fun x => { x with isOpen := false }) with
                reg := st.reg.set cp cr none } c,
              notifyPairStatus
              { updConn st c (fun x => { x with isOpen := false }) with
                reg := st.reg.set cp cr none } cp).1.reg = st.reg.set cp cr none
            from rfl] at hc'
          by_cases hqs : cp = q ∧ cr = s'
          · rcases hqs with ⟨rfl, rfl⟩
            rw [Registry.get_set_same _ _ _ (Registry.get_some_pair hget)] at hc'
            cases hc'
          · rw [Registry.get_set_ne _ _ hqs] at hc'
            rcases h q s' c' hc' with ⟨cs', hcs', hp', hr'⟩
            have hne : c' ≠ c := by
              intro hh
              subst hh
              rw [hcs] at hcs'
              injection hcs' with hcs'
              subst hcs'
              rw [hcp] at hp'
              rw [hcr] at hr'
              injection hp' with hp'
              injection hr' with hr'
              exact hqs ⟨hp', hr'⟩
            refine ⟨cs', ?_, hp', hr'⟩
            show (removeClient _ c).connSt c' = _
            unfold removeClient
            simp only [hne, if_false, ite_false]
            show (updConn st c _).connSt c' = _
            rw [updConn_connSt, if_neg hne]
            exact hcs'
        · rename_i hget
          intro q s' c' hc'
          rw [show ((removeClient (updConn st c fun x => { x with isOpen := false }) c,
              ([] : List Action))).1.reg = st.reg from rfl] at hc'
          rcases h q s' c' hc' with ⟨cs', hcs', hp', hr'⟩
          have hne : c' ≠ c := by
            intro hh
            subst hh
            rw [hcs] at hcs'
            injection hcs' with hcs'
            subst hcs'
            rw [hcp] at hp'
            rw [hcr] at hr'
            injection hp' with hp'
            injection hr' with hr'
            rw [← hp', ← hr'] at hc'
            exact hget hc'
          refine ⟨cs', ?_, hp', hr'⟩
          show (removeClient _ c).connSt c' = _
          unfold removeClient
          simp only [hne, if_false, ite_false]
          show (updConn st c _).connSt c' = _
          rw [updConn_connSt, if_neg hne]
          exact hcs'
      · rename_i h0
        simp at h0
        intro q s' c' hc'
        rw [show ((removeClient (updConn st c fun x => { x with isOpen := false }) c,
            ([] : List Action))).1.reg = st.reg from rfl] at hc'
        rcases h q s' c' hc' with ⟨cs', hcs', hp', hr'⟩
        have hne : c' ≠ c := by
          intro hh
          subst hh
          rw [hcs] at hcs'
          injection hcs' with hcs'
          subst hcs'
          rw [hcp] at hp'
          injection hp' with hp'
          rw [← hp', h0] at hc'
          simp [Registry.get] at hc'
        refine ⟨cs', ?_, hp', hr'⟩
        show (removeClient _ c).connSt c' = _
        unfold removeClient
        simp only [hne, if_false, ite_false]
        show (updConn st c _).connSt c' = _
        rw [updConn_connSt, if_neg hne]
        exact hcs'
    · rename_i hwild
      intro q s' c' hc'
      rw [show ((removeClient (updConn st c fun x => { x with isOpen := false }) c,
          ([] : List Action))).1.reg = st.reg from rfl] at hc'
      rcases h q s' c' hc' with ⟨cs', hcs', hp', hr'⟩
      have hne : c' ≠ c := by
        intro hh
        subst hh
        rw [hcs] at hcs'
        injection hcs' with hcs'
        subst hcs'
        exact hwild _ _ hp' hr'
      refine ⟨cs', ?_, hp', hr'⟩
      show (removeClient _ c).connSt c' = _
      unfold removeClient
      simp only [hne, if_false, ite_false]
      show (updConn st c _).connSt c' = _
      rw [updConn_connSt, if_neg hne]
      exact hcs'

/-- Every reactor event preserves the slot invariant. -/
theorem slotOk_step (st : Hub) (e : Event) (h : SlotOk st) : SlotOk (step st e).1 := by
  rcases e with c | ⟨c, f⟩ | c | c | _
  · rw [step]
    split
    · exact h
    · rename_i hnone
      intro p r c' hc'
      rcases h p r c' hc' with ⟨cs, hcs, hp, hr⟩
      refine ⟨cs, ?_, hp, hr⟩
      have hne : c' ≠ c := by
        intro hh
        rw [hh, hnone] at hcs
        cases hcs
      show (if c' = c then some ⟨none, none, true, true⟩ else st.connSt c') = some cs
      rw [if_neg hne]
      exact hcs
  · rw [step]
    split
    · exact h
    · rename_i cs hcs
      rcases f with dta | m
      · exact h
      · rcases m with _ | mm
        · exact h
        · rcases mm with payload | ⟨s, p⟩ | ty
          · exact h
          · exact slotOk_handleJoin c s p hcs h
          · exact h
  · refine @slotOk_of_projEq st (step st (.pong c)).1 rfl (fun x => ?_) h
    show ((updConn st c _).connSt x).map fieldsOf = _
    rw [updConn_connSt]
    split
    · rcases st.connSt x with _ | cs <;> simp [fieldsOf]
    · rfl
  · exact slotOk_handleClose c h
  · exact @slotOk_of_projEq st (step st .sweep).1 (sweepFold_reg st.clients (st, []))
      (fun x => sweepFold_fields st.clients (st, []) x) h

/-- The empty registry backs no slot. -/
theorem slotOk_initHub : SlotOk initHub := by
  intro p r c hc
  by_cases h1 : p = 1
  · subst h1
    cases r <;> simp [Registry.get, initHub] at hc
  · by_cases h2 : p = 2
    · subst h2
      cases r <;> simp [Registry.get, initHub] at hc
    · simp [Registry.get, initHub, h1, h2] at hc

/-- The invariant holds in every reachable hub state. -/
theorem slotOk_run (es : List Event) : SlotOk (run initHub es) := by
  have hgen : ∀ (es : List Event) (st : Hub), SlotOk st → SlotOk (run st es) := by
    intro es
    induction es with
    | nil => exact fun st h => h
    | cons e es ih => exact fun st h => ih (step st e).1 (slotOk_step st e h)
  exact hgen es initHub slotOk_initHub

/-- C1: in every hub state reachable by any sequence of connection, join,
message, close-event, pong and sweep events, each (pair, role) slot holds
at most one connection, and no connection occupies two distinct (pair,
role) slots at once (a join always releases the previous slot before
registering the new one, which is what maintains this). -/
theorem slot_exclusivity (es : List Event) :
    (∀ p r c c', (run initHub es).reg.get p r = some c →
      (run initHub es).reg.get p r = some c' → c = c') ∧
    (∀ p r p' r' c, (run initHub es).reg.get p r = some c →
      (run initHub es).reg.get p' r' = some c → p = p' ∧ r = r') := by
  constructor
  · intro p r c c' hc hc'
    rw [hc] at hc'
    injection hc'
  · intro p r p' r' c hc hc'
    rcases slotOk_run es p r c hc with ⟨cs, hcs, hp, hr⟩
    rcases slotOk_run es p' r' c hc' with ⟨cs', hcs', hp', hr'⟩
    rw [hcs] at hcs'
    injection hcs' with hcs'
    subst hcs'
    rw [hp] at hp'
    rw [hr] at hr'
    injection hp' with hp'
    injection hr' with hr'
    exact ⟨hp', hr'⟩

/-- Witness for C1: after connection 0 joins (phone, 1) and connection 1
joins (matrix, 1), the exclusivity conclusions evaluate at the occupied
slots. -/
theorem slot_exclusivity_witness :
    (run initHub [.connect 0, .message 0 (.text (some (.join "phone" 1))),
      .connect 1, .message 1 (.text (some (.join "matrix" 1)))]).reg.get 1 .phone =
      some 0 ∧
    (1 = 1 ∧ Role.phone = Role.phone) ∧ (0 = 0) := by
  have h := slot_exclusivity [.connect 0, .message 0 (.text (some (.join "phone" 1))),
    .connect 1, .message 1 (.text (some (.join "matrix" 1)))]
  exact ⟨by decide, h.2 1 .phone 1 .phone 0 (by decide) (by decide),
    h.1 1 .phone 0 0 (by decide) (by decide)⟩

end MissingDrop
